import Mathlib

/-!
Verification of the crispy compile-on-demand driver core against its
natural-language specification.

The C sources are shallowly embedded: C byte strings become `List Char`
(or `List Nat` where the bytes matter), GLib checksums become an explicit
accumulating byte list finalised with a full executable SHA-256, and the
pipeline in `crispy_script_execute` becomes a pure function over an
environment recording the outcome of every external effect.  Definitions
follow the C control flow; theorems state the specification claims.
-/

/-! ## Byte-level SHA-256 (G_CHECKSUM_SHA256 as used by the file cache) -/

/-- Truncation to a 32-bit word, the wrap-around of C `guint32` arithmetic. -/
def w32 (n : Nat) : Nat := n % 4294967296

/-- Right rotation of a 32-bit word. -/
def rotr (n x : Nat) : Nat := w32 ((x >>> n) ||| (x <<< (32 - n)))

/-- SHA-256 small sigma-0 schedule function. -/
def smallSigma0 (x : Nat) : Nat := (rotr 7 x) ^^^ (rotr 18 x) ^^^ (x >>> 3)

/-- SHA-256 small sigma-1 schedule function. -/
def smallSigma1 (x : Nat) : Nat := (rotr 17 x) ^^^ (rotr 19 x) ^^^ (x >>> 10)

/-- SHA-256 big sigma-0 round function. -/
def bigSigma0 (x : Nat) : Nat := (rotr 2 x) ^^^ (rotr 13 x) ^^^ (rotr 22 x)

/-- SHA-256 big sigma-1 round function. -/
def bigSigma1 (x : Nat) : Nat := (rotr 6 x) ^^^ (rotr 11 x) ^^^ (rotr 25 x)

/-- SHA-256 choice function. -/
def shaCh (x y z : Nat) : Nat := (x &&& y) ^^^ ((x ^^^ 4294967295) &&& z)

/-- SHA-256 majority function. -/
def shaMaj (x y z : Nat) : Nat := (x &&& y) ^^^ (x &&& z) ^^^ (y &&& z)

/-- The 64 SHA-256 round constants. -/
def sha256K : List Nat :=
  [1116352408, 1899447441, 3049323471, 3921009573, 961987163,
   1508970993, 2453635748, 2870763221, 3624381080, 310598401,
   607225278, 1426881987, 1925078388, 2162078206, 2614888103,
   3248222580, 3835390401, 4022224774, 264347078, 604807628,
   770255983, 1249150122, 1555081692, 1996064986, 2554220882,
   2821834349, 2952996808, 3210313671, 3336571891, 3584528711,
   113926993, 338241895, 666307205, 773529912, 1294757372,
   1396182291, 1695183700, 1986661051, 2177026350, 2456956037,
   2730485921, 2820302411, 3259730800, 3345764771, 3516065817,
   3600352804, 4094571909, 275423344, 430227734, 506948616,
   659060556, 883997877, 958139571, 1322822218, 1537002063,
   1747873779, 1955562222, 2024104815, 2227730452, 2361852424,
   2428436474, 2756734187, 3204031479, 3329325298]

/-- SHA-256 working state: eight 32-bit words. -/
structure Sha256State where
  h0 : Nat
  h1 : Nat
  h2 : Nat
  h3 : Nat
  h4 : Nat
  h5 : Nat
  h6 : Nat
  h7 : Nat

/-- SHA-256 initial hash value. -/
def sha256Init : Sha256State :=
  ⟨1779033703, 3144134277, 1013904242, 2773480762,
   1359893119, 2600822924, 528734635, 1541459225⟩

/-- Pack bytes into big-endian 32-bit words (four bytes per word). -/
def bytesToWords : List Nat → List Nat
  | b0 :: b1 :: b2 :: b3 :: rest =>
      ((b0 % 256) * 16777216 + (b1 % 256) * 65536 + (b2 % 256) * 256 +
        (b3 % 256)) :: bytesToWords rest
  | _ => []

/-- Extend the 16-word message block, appending one scheduled word per step. -/
def extendLoop : Nat → List Nat → List Nat
  | 0, w => w
  | n + 1, w =>
    let len := w.length
    let nw := w32 (smallSigma1 (w.getD (len - 2) 0) + w.getD (len - 7) 0 +
      smallSigma0 (w.getD (len - 15) 0) + w.getD (len - 16) 0)
    extendLoop n (w ++ [nw])

/-- The full 64-word message schedule of one chunk. -/
def msgSchedule (w : List Nat) : List Nat := extendLoop 48 w

/-- One SHA-256 compression round; the pair carries (word, round constant). -/
def roundStep (st : Sha256State) (wk : Nat × Nat) : Sha256State :=
  let t1 := w32 (st.h7 + bigSigma1 st.h4 + shaCh st.h4 st.h5 st.h6 + wk.2 + wk.1)
  let t2 := w32 (bigSigma0 st.h0 + shaMaj st.h0 st.h1 st.h2)
  ⟨w32 (t1 + t2), st.h0, st.h1, st.h2, w32 (st.h3 + t1), st.h4, st.h5, st.h6⟩

/-- Compress one 64-byte chunk into the running state. -/
def compressChunk (st : Sha256State) (chunk : List Nat) : Sha256State :=
  let w := msgSchedule (bytesToWords chunk)
  let r := (w.zip sha256K).foldl roundStep st
  ⟨w32 (st.h0 + r.h0), w32 (st.h1 + r.h1), w32 (st.h2 + r.h2),
   w32 (st.h3 + r.h3), w32 (st.h4 + r.h4), w32 (st.h5 + r.h5),
   w32 (st.h6 + r.h6), w32 (st.h7 + r.h7)⟩

/-- Big-endian 8-byte encoding of the bit length. -/
def lengthBytes (bl : Nat) : List Nat :=
  [(bl >>> 56) % 256, (bl >>> 48) % 256, (bl >>> 40) % 256, (bl >>> 32) % 256,
   (bl >>> 24) % 256, (bl >>> 16) % 256, (bl >>> 8) % 256, bl % 256]

/-- SHA-256 padding: a 0x80 byte, zeros to 56 mod 64, then the bit length. -/
def padMsg (msg : List Nat) : List Nat :=
  let len := msg.length
  let padZeros := (64 - ((len + 9) % 64)) % 64
  msg ++ 0x80 :: List.replicate padZeros 0 ++ lengthBytes (len * 8)

/-- Cut a byte list into 64-byte chunks (fuelled; the fuel is ample). -/
def chunks64Loop : Nat → List Nat → List (List Nat)
  | 0, _ => []
  | _, [] => []
  | fuel + 1, l => l.take 64 :: chunks64Loop fuel (l.drop 64)

/-- All 64-byte chunks of a byte list. -/
def chunks64 (l : List Nat) : List (List Nat) := chunks64Loop l.length l

/-- Serialize one 32-bit word to four big-endian bytes. -/
def wordBytes (w : Nat) : List Nat :=
  [(w >>> 24) % 256, (w >>> 16) % 256, (w >>> 8) % 256, w % 256]

/-- Serialize the final state to the 32-byte (256-bit) digest. -/
def digestBytes (st : Sha256State) : List Nat :=
  wordBytes st.h0 ++ wordBytes st.h1 ++ wordBytes st.h2 ++ wordBytes st.h3 ++
  wordBytes st.h4 ++ wordBytes st.h5 ++ wordBytes st.h6 ++ wordBytes st.h7

/-- SHA-256 of a byte string, as the 32-byte digest. -/
def sha256 (msg : List Nat) : List Nat :=
  digestBytes ((chunks64 (padMsg msg)).foldl compressChunk sha256Init)

/-! ## Lowercase hex rendering (g_checksum_get_string) -/

/-- One lowercase hexadecimal digit. -/
def hexDigit (n : Nat) : Char :=
  if n % 16 < 10 then Char.ofNat (48 + n % 16) else Char.ofNat (87 + n % 16)

/-- Lowercase hexadecimal rendering of a byte string, two digits per byte. -/
def hexOfBytes (bs : List Nat) : List Char :=
  bs.flatMap (fun b => [hexDigit ((b / 16) % 16), hexDigit (b % 16)])

/-! ## GChecksum and `file_cache_compute_hash`

`GChecksum` is modelled as the byte string accumulated by successive
`g_checksum_update` calls; `g_checksum_get_string` finalises it with
SHA-256 (the driver's `CRISPY_HASH_ALGO`) and renders lowercase hex. -/

/-- The accumulating checksum object. -/
structure GChecksum where
  acc : List Nat

/-- g_checksum_new: empty accumulator. -/
def g_checksum_new : GChecksum := ⟨[]⟩

/-- g_checksum_update: append the given bytes. -/
def g_checksum_update (c : GChecksum) (bytes : List Nat) : GChecksum :=
  ⟨c.acc ++ bytes⟩

/-- g_checksum_get_string: lowercase hex of the SHA-256 digest. -/
def g_checksum_get_string (c : GChecksum) : List Char :=
  hexOfBytes (sha256 c.acc)

/-- Embedding of `file_cache_compute_hash` (crispy-file-cache.c).  The
source bytes come with their explicit length (the list is exactly those
bytes, embedded zeros included); `extra_flags` may be NULL (`none`). -/
def file_cache_compute_hash (source_content : List Nat)
    (extra_flags : Option (List Nat)) (compiler_version : List Nat) :
    List Char :=
  let checksum := g_checksum_new
  -- hash source content
  let checksum := g_checksum_update checksum source_content
  -- NUL separator
  let checksum := g_checksum_update checksum [0]
  -- hash extra flags (or empty string)
  let checksum :=
    match extra_flags with
    | some f => g_checksum_update checksum f
    | none => checksum
  -- NUL separator
  let checksum := g_checksum_update checksum [0]
  -- hash compiler version
  let checksum := g_checksum_update checksum compiler_version
  g_checksum_get_string checksum

/-- The lowercase hexadecimal alphabet. -/
def hexAlphabet : List Char := "0123456789abcdef".toList

theorem hexDigit_mem_alphabet (n : Nat) : hexDigit n ∈ hexAlphabet := by
  unfold hexDigit hexAlphabet
  have h : n % 16 < 16 := Nat.mod_lt _ (by decide)
  interval_cases h : n % 16 <;> decide

theorem hexOfBytes_mem_alphabet {bs : List Nat} {c : Char}
    (h : c ∈ hexOfBytes bs) : c ∈ hexAlphabet := by
  unfold hexOfBytes at h
  rcases List.mem_flatMap.mp h with ⟨b, _, hc⟩
  simp only [List.mem_cons, List.not_mem_nil, or_false] at hc
  rcases hc with h1 | h1 <;> exact h1 ▸ hexDigit_mem_alphabet _

theorem digestBytes_length (st : Sha256State) : (digestBytes st).length = 32 := by
  simp [digestBytes, wordBytes]

theorem sha256_length (msg : List Nat) : (sha256 msg).length = 32 := by
  unfold sha256
  exact digestBytes_length _

/-- C1: the cache fingerprint is the lowercase hexadecimal rendering of
the 256-bit SHA-256 digest of `source ∥ 0x00 ∥ flags ∥ 0x00 ∥ version`,
with a missing (NULL) flags string encoded as the empty string; the
digest is 32 bytes (256 bits), every output character is a lowercase hex
digit, and recomputation on the same triple yields the same string. -/
theorem c1_compute_hash_spec (source : List Nat) (flags : Option (List Nat))
    (version : List Nat) :
    file_cache_compute_hash source flags version =
      hexOfBytes (sha256 (source ++ 0 :: flags.getD [] ++ 0 :: version)) ∧
    (sha256 (source ++ 0 :: flags.getD [] ++ 0 :: version)).length = 32 ∧
    (∀ c ∈ file_cache_compute_hash source flags version, c ∈ hexAlphabet) ∧
    file_cache_compute_hash source flags version =
      file_cache_compute_hash source flags version := by
  refine ⟨?_, sha256_length _, ?_, rfl⟩
  · cases flags <;>
      simp [file_cache_compute_hash, g_checksum_new, g_checksum_update,
        g_checksum_get_string]
  · intro c hc
    exact hexOfBytes_mem_alphabet hc

/-! ## File cache validity (`file_cache_get_path`, `file_cache_has_valid`)

The filesystem is modelled as a partial map from paths to file metadata:
`g_file_test(path, G_FILE_TEST_IS_REGULAR)` consults the `isRegular` bit
and `g_stat` succeeds exactly when the path is present. -/

/-- Metadata of one filesystem entry: kind and modification time. -/
structure FileInfo where
  isRegular : Bool
  mtime : Int

/-- A filesystem state: paths to metadata, `none` meaning absent. -/
def FileSystem : Type := List Char → Option FileInfo

/-- Embedding of `file_cache_get_path`: `<cache-dir>/<hash>.so`. -/
def file_cache_get_path (cache_dir hash : List Char) : List Char :=
  cache_dir ++ '/' :: hash ++ ['.', 's', 'o']

/-- Embedding of `file_cache_has_valid` (crispy-file-cache.c): the cached
artifact must exist as a regular file and, when a source path is given,
both files must stat successfully with the artifact not older. -/
def file_cache_has_valid (fs : FileSystem) (cache_dir hash : List Char)
    (source_path : Option (List Char)) : Bool :=
  let so_path := file_cache_get_path cache_dir hash
  -- check if the cached .so exists (g_file_test IS_REGULAR)
  match fs so_path with
  | none => false
  | some soInfo =>
    if !soInfo.isRegular then false
    else
      -- if no source path, existence is sufficient (inline/stdin)
      match source_path with
      | none => true
      | some src =>
        -- compare mtime: cached .so must be newer than source
        match fs so_path with
        | none => false
        | some so_stat =>
          match fs src with
          | none => false
          | some src_stat => decide (so_stat.mtime ≥ src_stat.mtime)

/-- C3: given that a supplied source path refers to an existing file, the
validity predicate holds iff the artifact derived from the fingerprint
exists as a regular file and, when a source path is supplied, the
artifact's modification time is not strictly older than the source
file's; with no source path, existence alone suffices. -/
theorem c3_has_valid_iff (fs : FileSystem) (cache_dir hash : List Char)
    (source_path : Option (List Char))
    (hsrc : ∀ p, source_path = some p → (fs p).isSome) :
    file_cache_has_valid fs cache_dir hash source_path = true ↔
      ∃ art, fs (file_cache_get_path cache_dir hash) = some art ∧
        art.isRegular = true ∧
        ∀ p srcInfo, source_path = some p → fs p = some srcInfo →
          art.mtime ≥ srcInfo.mtime := by
  simp only [file_cache_has_valid]
  cases hart : fs (file_cache_get_path cache_dir hash) with
  | none => simp [hart]
  | some art =>
    cases hreg : art.isRegular with
    | false => simp [hart, hreg]
    | true =>
      cases source_path with
      | none => simp [hart, hreg]
      | some src =>
        have hs := hsrc src rfl
        cases hfs : fs src with
        | none => rw [hfs] at hs; cases hs
        | some srcInfo =>
          constructor
          · intro h
            refine ⟨art, rfl, hreg, ?_⟩
            intro p pInfo hp hpi
            cases hp
            rw [hfs] at hpi
            cases hpi
            simp [hreg, hfs] at h
            exact h
          · rintro ⟨art2, hart2, _, hmt⟩
            cases hart2
            simp [hreg, hfs]
            exact hmt src srcInfo rfl hfs

/-- Concrete witness filesystem for the C3 theorem. -/
def fsWitness : FileSystem := fun p =>
  if p = file_cache_get_path ['c'] ['h'] then some ⟨true, 5⟩
  else if p = ['s'] then some ⟨true, 3⟩
  else none

/-- Witness for C3 at a concrete filesystem: artifact newer than source. -/
theorem c3_has_valid_iff_witness :
    file_cache_has_valid fsWitness ['c'] ['h'] (some ['s']) = true ↔
      ∃ art, fsWitness (file_cache_get_path ['c'] ['h']) = some art ∧
        art.isRegular = true ∧
        ∀ p srcInfo, (some ['s'] : Option (List Char)) = some p →
          fsWitness p = some srcInfo → art.mtime ≥ srcInfo.mtime :=
  c3_has_valid_iff fsWitness ['c'] ['h'] (some ['s'])
    (by intro p hp; cases hp; decide)

/-! ## Source utilities (crispy-source-utils-private.c)

C strings become `List Char`.  `strstr`, `strchr` and `strrchr` operate on
the NUL-terminated remainder of the original string, so they are modelled
on the full suffix at hand, not on a single line. -/

/-- The space/tab test used when skipping leading line whitespace. -/
def isSpTab (c : Char) : Bool := c = ' ' || c = '\t'

/-- The `#define` keyword checked by `g_str_has_prefix`. -/
def defineTok : List Char := "#define".toList

/-- The `CRISPY_PARAMS` token searched by `strstr`. -/
def crispyParamsTok : List Char := "CRISPY_PARAMS".toList

/-- The shebang marker checked on the first line. -/
def shebangTok : List Char := "#!".toList

/-- Boolean embedding of `strstr(hay, needle) != NULL`. -/
def strstrContains (needle : List Char) : List Char → Bool
  | [] => needle.isPrefixOf []
  | c :: t => needle.isPrefixOf (c :: t) || strstrContains needle t

/-- The quoted-value extraction of `crispy_source_extract_params`:
find the first double quote with strchr, step past it, find the last
double quote in the remainder with strrchr, and return the span strictly
between them when it is non-empty (the C requires end > start). -/
def extractQuoted (p : List Char) : Option (List Char) :=
  match p.dropWhile (fun c => !(c = '"')) with
  | [] => none
  | _ :: start =>
    match start.reverse.dropWhile (fun c => !(c = '"')) with
    | [] => none
    | _ :: revPre =>
      if revPre.isEmpty then none else some revPre.reverse

/-- One iteration body of the `crispy_source_extract_params` line loop:
skip leading spaces/tabs, test `#define` as prefix and `CRISPY_PARAMS`
anywhere in the remaining text, then attempt the quote extraction. -/
def lineStep (pos : List Char) : Option (List Char) :=
  let p := pos.dropWhile isSpTab
  if defineTok.isPrefixOf p && strstrContains crispyParamsTok p then
    extractQuoted p
  else none

/-- The fuelled `while` loop of `crispy_source_extract_params`: process
the current line; on failure advance past the first newline, stopping at
the end of the string.  The fuel is ample (each step consumes at least
one character). -/
def extractLoop : Nat → List Char → Option (List Char)
  | 0, _ => none
  | _ + 1, [] => none
  | fuel + 1, c :: cs =>
    match lineStep (c :: cs) with
    | some v => some v
    | none =>
      match (c :: cs).dropWhile (fun x => !(x = '\n')) with
      | _ :: rest => extractLoop fuel rest
      | [] => none

/-- Embedding of `crispy_source_extract_params` for non-NULL sources. -/
def crispy_source_extract_params (source : List Char) : Option (List Char) :=
  extractLoop (source.length + 1) source

/-- Split on newline, the single-separator core of `g_strsplit`. -/
def splitNlChars : List Char → List (List Char)
  | [] => [[]]
  | c :: rest =>
    if c = '\n' then [] :: splitNlChars rest
    else
      match splitNlChars rest with
      | [] => [[c]]
      | l :: ls => (c :: l) :: ls

/-- Embedding of g_strsplit on newline: the empty string yields an empty
vector, otherwise newline-separated segments (a trailing newline yields a
final empty segment). -/
def g_strsplit_nl (s : List Char) : List (List Char) :=
  if s.isEmpty then [] else splitNlChars s

/-- The per-line parameter-macro test of `crispy_source_strip_header`:
leading whitespace skipped, `#define` prefix, `CRISPY_PARAMS` within the
line. -/
def lineMatches (line : List Char) : Bool :=
  let p := line.dropWhile isSpTab
  defineTok.isPrefixOf p && strstrContains crispyParamsTok p

/-- The line-rebuilding loop of `crispy_source_strip_header`: drop a
first-line shebang, drop the first parameter-macro line, append every
kept line followed by a newline. -/
def stripLines : Bool → Bool → List (List Char) → List Char
  | _, _, [] => []
  | isFirst, found, line :: rest =>
    if isFirst && shebangTok.isPrefixOf line then
      stripLines false found rest
    else if !found && lineMatches line then
      stripLines false true rest
    else
      line ++ '\n' :: stripLines false found rest

/-- Embedding of `crispy_source_strip_header` for non-NULL sources. -/
def crispy_source_strip_header (source : List Char) : List Char :=
  stripLines true false (g_strsplit_nl source)

/-! ## C7: what extract-params actually returns -/

/-- The suffix of the text after each newline character, in order: the
line-start positions the extraction loop visits after the first. -/
def nlSuffixes : List Char → List (List Char)
  | [] => []
  | c :: rest =>
    if c = '\n' then rest :: nlSuffixes rest else nlSuffixes rest

/-- Amended specification of `crispy_source_extract_params`, following
the corrected claim: visit every line-start suffix in order and return
the first line result, where a line yields a value when, after skipping
spaces and tabs, `#define` is a prefix and `CRISPY_PARAMS` occurs in the
remaining text (possibly on a later line), and the span between the first
double quote and the last double quote of the whole remaining text is
non-empty; that span — which may include bytes of later lines — is the
result. -/
def extract_params_amended (source : List Char) : Option (List Char) :=
  (source :: nlSuffixes source).findSome? lineStep

theorem nlSuffixes_eq_drop (pos : List Char) :
    nlSuffixes pos =
      match pos.dropWhile (fun x => !(x = '\n')) with
      | [] => []
      | _ :: rest => rest :: nlSuffixes rest := by
  induction pos with
  | nil => simp [nlSuffixes, List.dropWhile]
  | cons c rest ih =>
    by_cases h : c = '\n'
    · subst h
      simp [nlSuffixes, List.dropWhile]
    · simp [nlSuffixes, List.dropWhile, h, ih]

theorem extractLoop_spec (fuel : Nat) (pos : List Char)
    (hf : pos.length < fuel) :
    extractLoop fuel pos = (pos :: nlSuffixes pos).findSome? lineStep := by
  induction fuel generalizing pos with
  | zero => omega
  | succ fuel ih =>
    cases pos with
    | nil => simp [extractLoop, nlSuffixes]; decide
    | cons c cs =>
      rw [extractLoop]
      cases hstep : lineStep (c :: cs) with
      | some v => simp [List.findSome?_cons, hstep]
      | none =>
        rw [List.findSome?_cons, hstep]
        rw [nlSuffixes_eq_drop (c :: cs)]
        cases hd : (c :: cs).dropWhile (fun x => !(x = '\n')) with
        | nil => simp
        | cons x rest =>
          simp only []
          have hsuf : (x :: rest).length ≤ (c :: cs).length := by
            have hsf : (c :: cs).dropWhile (fun x => !(x = '\n')) <:+ c :: cs :=
              List.dropWhile_suffix _
            rw [hd] at hsf
            exact hsf.length_le
          have hrest : rest.length < fuel := by
            simp [List.length_cons] at hsuf hf
            omega
          exact ih rest hrest

/-- C7 (amended): `crispy_source_extract_params` agrees everywhere with
the amended first-match description `extract_params_amended`. -/
theorem c7_extract_params_amended_spec (source : List Char) :
    crispy_source_extract_params source = extract_params_amended source :=
  extractLoop_spec (source.length + 1) source (Nat.lt_succ_self _)

/-- C7 counterexample input: a parameter macro line followed by a second
line containing a double quote. -/
def cex7 : List Char := "#define CRISPY_PARAMS \"a\"\n\"b\"".toList

/-- C7 counterexample: the extractor closes the value at the last double
quote of the whole remaining source, so the returned value spans the
newline and contains bytes of the later line, contradicting the claim
that the value is the literal on the same line (here it would be `a`). -/
theorem c7_counterexample :
    crispy_source_extract_params cex7 = some ("a\"\n\"b".toList) ∧
      '\n' ∈ ("a\"\n\"b".toList) := by decide

/-! ## C8: what strip-header actually returns -/

/-- Drop the first line when it is a shebang line. -/
def dropShebangLine : List (List Char) → List (List Char)
  | [] => []
  | line :: rest =>
    if shebangTok.isPrefixOf line then rest else line :: rest

/-- Amended specification of `crispy_source_strip_header`: the kept lines
are the newline-separated segments minus a leading shebang segment and
minus the first parameter-macro segment. -/
def keptLines (source : List Char) : List (List Char) :=
  List.eraseP lineMatches (dropShebangLine (g_strsplit_nl source))

theorem stripLines_found (ls : List (List Char)) :
    stripLines false true ls = (ls.map (fun l => l ++ ['\n'])).flatten := by
  induction ls with
  | nil => rfl
  | cons line rest ih => simp [stripLines, ih]

theorem stripLines_notfound (ls : List (List Char)) :
    stripLines false false ls =
      ((ls.eraseP lineMatches).map (fun l => l ++ ['\n'])).flatten := by
  induction ls with
  | nil => rfl
  | cons line rest ih =>
    by_cases h : lineMatches line
    · simp [stripLines, h, List.eraseP_cons_of_pos, stripLines_found]
    · simp [stripLines, h, List.eraseP_cons_of_neg, ih]

theorem strip_header_eq_keptLines (source : List Char) :
    crispy_source_strip_header source =
      ((keptLines source).map (fun l => l ++ ['\n'])).flatten := by
  unfold crispy_source_strip_header keptLines
  cases hls : g_strsplit_nl source with
  | nil => rfl
  | cons line rest =>
    by_cases h : shebangTok.isPrefixOf line
    · simp [stripLines, h, dropShebangLine, stripLines_notfound]
    · by_cases hm : lineMatches line
      · simp [stripLines, h, hm, dropShebangLine, List.eraseP_cons_of_pos,
          stripLines_found]
      · simp [stripLines, h, hm, dropShebangLine, List.eraseP_cons_of_neg,
          stripLines_notfound]

/-- C8 (amended): strip-header emits exactly the kept lines — the
newline-separated segments minus a leading shebang segment and minus the
first parameter-macro segment — in order, each followed by one newline
character.  At most two lines are removed and all other lines are
preserved verbatim in order, but every kept segment is re-terminated
with a newline, so the output always ends in a newline: one newline byte
may appear that did not come from the input. -/
theorem c8_strip_header_amended_spec (source : List Char) :
    crispy_source_strip_header source =
      ((keptLines source).map (fun l => l ++ ['\n'])).flatten :=
  strip_header_eq_keptLines source

/-- C8 counterexample: on the one-character input `x` (which contains no
newline) strip-header returns `x` followed by a newline, so the output
contains a newline byte that did not come from the input. -/
theorem c8_counterexample :
    crispy_source_strip_header ['x'] = ['x', '\n'] ∧ '\n' ∉ ['x'] := by
  decide

/-! ## C9: extraction after stripping -/

theorem strstrContains_iff (needle : List Char) :
    ∀ hay, strstrContains needle hay = true ↔ needle <:+: hay := by
  intro hay
  induction hay with
  | nil =>
    simp [strstrContains, List.isPrefixOf_iff_prefix]
  | cons c t ih =>
    simp [strstrContains, List.isPrefixOf_iff_prefix, ih,
      List.infix_cons_iff]

theorem prefix_append_cons_of_notMem {pat l₂ : List Char} {c : Char}
    (l₁ : List Char) (h : pat <+: l₁ ++ c :: l₂) (hc : c ∉ pat) :
    pat <+: l₁ := by
  induction pat generalizing l₁ with
  | nil => exact List.nil_prefix
  | cons x xs ih =>
    cases l₁ with
    | nil =>
      rw [List.nil_append, List.cons_prefix_cons] at h
      exact absurd (h.1 ▸ List.mem_cons_self x xs) hc
    | cons y l₁ =>
      rw [List.cons_append, List.cons_prefix_cons] at h
      have hx : c ∉ xs := fun hm => hc (List.mem_cons_of_mem _ hm)
      exact List.cons_prefix_cons.mpr ⟨h.1, ih l₁ h.2 hx⟩

theorem infix_append_cons_split {pat l₁ l₂ : List Char} {c : Char}
    (hne : pat ≠ []) (hc : c ∉ pat) (h : pat <:+: l₁ ++ c :: l₂) :
    pat <:+: l₁ ∨ pat <:+: l₂ := by
  induction l₁ with
  | nil =>
    rw [List.nil_append, List.infix_cons_iff] at h
    rcases h with h | h
    · cases pat with
      | nil => exact absurd rfl hne
      | cons x xs =>
        rw [List.cons_prefix_cons] at h
        exact absurd (h.1 ▸ List.mem_cons_self x xs) hc
    · exact Or.inr h
  | cons a l₁ ih =>
    rw [List.cons_append, List.infix_cons_iff] at h
    rcases h with h | h
    · have hpre := prefix_append_cons_of_notMem (a :: l₁) h hc
      exact Or.inl hpre.isInfix
    · rcases ih h with h | h
      · exact Or.inl (List.infix_cons_iff.mpr (Or.inr h))
      · exact Or.inr h

theorem lineMatches_hasTok {l : List Char} (h : lineMatches l = true) :
    crispyParamsTok <:+: l := by
  unfold lineMatches at h
  simp only [Bool.and_eq_true] at h
  rcases h with ⟨_, hs⟩
  have h1 := (strstrContains_iff crispyParamsTok _).mp hs
  exact h1.trans (List.dropWhile_suffix isSpTab).isInfix

theorem noInfix_flatten {ls : List (List Char)}
    (h : ∀ l ∈ ls, ¬ crispyParamsTok <:+: l) :
    ¬ crispyParamsTok <:+: ((ls.map (fun l => l ++ ['\n'])).flatten) := by
  induction ls with
  | nil =>
    intro hin
    rw [List.map_nil, List.flatten_nil, List.infix_nil] at hin
    exact absurd hin (by decide)
  | cons l rest ih =>
    intro hin
    rw [List.map_cons, List.flatten_cons, List.append_assoc,
      List.singleton_append] at hin
    rcases infix_append_cons_split (by decide) (by decide) hin with h1 | h1
    · exact h l (List.mem_cons_self _ _) h1
    · exact ih (fun l hl => h l (List.mem_cons_of_mem _ hl)) h1

theorem extractLoop_hasTok (fuel : Nat) :
    ∀ pos v, extractLoop fuel pos = some v → crispyParamsTok <:+: pos := by
  induction fuel with
  | zero => intro pos v h; cases h
  | succ fuel ih =>
    intro pos v h
    cases pos with
    | nil => cases h
    | cons c cs =>
      rw [extractLoop] at h
      cases hstep : lineStep (c :: cs) with
      | some w =>
        unfold lineStep at hstep
        by_cases hcond : defineTok.isPrefixOf ((c :: cs).dropWhile isSpTab) &&
            strstrContains crispyParamsTok ((c :: cs).dropWhile isSpTab)
        · simp only [Bool.and_eq_true] at hcond
          rcases hcond with ⟨_, hs⟩
          have h1 := (strstrContains_iff crispyParamsTok _).mp hs
          exact h1.trans (List.dropWhile_suffix isSpTab).isInfix
        · simp [hcond] at hstep
      | none =>
        rw [hstep] at h
        cases hd : (c :: cs).dropWhile (fun x => !(x = '\n')) with
        | nil => rw [hd] at h; cases h
        | cons x rest =>
          rw [hd] at h
          have hrec := ih rest v h
          have hsuf : rest <:+ (c :: cs) := by
            have h1 : (c :: cs).dropWhile (fun x => !(x = '\n')) <:+ c :: cs :=
              List.dropWhile_suffix _
            rw [hd] at h1
            exact (List.suffix_cons x rest).trans h1
          exact hrec.trans hsuf.isInfix

theorem extract_params_none_of_noInfix {s : List Char}
    (h : ¬ crispyParamsTok <:+: s) :
    crispy_source_extract_params s = none := by
  cases he : crispy_source_extract_params s with
  | none => rfl
  | some v =>
    exact absurd (extractLoop_hasTok (s.length + 1) s v he) h

/-- C9 (amended): whenever extract-params finds a value in the source and
moreover at most one newline-separated segment of the source contains the
text `CRISPY_PARAMS` and every segment containing it is a genuine
parameter-macro line (whitespace then `#define` as prefix with
`CRISPY_PARAMS` inside the segment), extract-params on the stripped
source is absent.  Without the proviso the claim fails (see the
counterexample): stripping removes at most one per-line match while
extraction also matches across lines. -/
theorem c9_extract_strip_amended (s : List Char)
    (h1 : (g_strsplit_nl s).countP
        (fun l => strstrContains crispyParamsTok l) ≤ 1)
    (h2 : ∀ l ∈ g_strsplit_nl s,
        strstrContains crispyParamsTok l = true → lineMatches l = true)
    (_h3 : crispy_source_extract_params s ≠ none) :
    crispy_source_extract_params (crispy_source_strip_header s) = none := by
  rw [strip_header_eq_keptLines]
  apply extract_params_none_of_noInfix
  apply noInfix_flatten
  intro l hl hinf
  -- the kept line `l` would contain CRISPY_PARAMS
  set ls2 := dropShebangLine (g_strsplit_nl s) with hls2
  have hsub2 : ls2 ⊆ g_strsplit_nl s := by
    rw [hls2]
    cases hg : g_strsplit_nl s with
    | nil => simp [dropShebangLine]
    | cons a rest =>
      unfold dropShebangLine
      by_cases hsh : shebangTok.isPrefixOf a
      · simp only [hsh, if_pos]
        exact fun x hx => List.mem_cons_of_mem _ hx
      · simp only [hsh, if_neg, Bool.false_eq_true, not_false_iff]
        exact fun x hx => hx
  have hkept : l ∈ List.eraseP lineMatches ls2 := hl
  have hlin2 : l ∈ ls2 := (List.eraseP_sublist ls2).subset hkept
  have hlin : l ∈ g_strsplit_nl s := hsub2 hlin2
  have hlstr : strstrContains crispyParamsTok l = true :=
    (strstrContains_iff crispyParamsTok l).mpr hinf
  have hlm : lineMatches l = true := h2 l hlin hlstr
  -- so eraseP did remove some (earlier or equal) matching element
  rcases List.exists_of_eraseP hlin2 hlm with
    ⟨a, t₁, t₂, _, ha, hsplit, herase⟩
  have hastr : strstrContains crispyParamsTok a = true :=
    (strstrContains_iff crispyParamsTok a).mpr (lineMatches_hasTok ha)
  -- counting CRISPY_PARAMS-containing segments: both a and l contribute
  have hcount2 : (g_strsplit_nl s).countP
      (fun l => strstrContains crispyParamsTok l) ≥ ls2.countP
      (fun l => strstrContains crispyParamsTok l) := by
    rw [hls2]
    cases hg : g_strsplit_nl s with
    | nil => simp [dropShebangLine]
    | cons b rest =>
      unfold dropShebangLine
      by_cases hsh : shebangTok.isPrefixOf b
      · simp only [hsh, if_pos]
        rw [List.countP_cons]
        omega
      · simp only [hsh, if_neg, Bool.false_eq_true, not_false_iff]
        omega
  have hmem' : l ∈ t₁ ++ t₂ := herase ▸ hkept
  have hcnt : ls2.countP (fun l => strstrContains crispyParamsTok l) ≥ 2 := by
    have h5 : (t₁ ++ t₂).countP (fun l => strstrContains crispyParamsTok l) ≥ 1 :=
      List.countP_pos_iff.mpr ⟨l, hmem', hlstr⟩
    rw [List.countP_append] at h5
    rw [hsplit, List.countP_append, List.countP_cons, hastr]
    simp only [eq_self_iff_true, if_true]
    omega
  omega

/-- C9 counterexample input: a `#define` line followed by a quoted
occurrence of `CRISPY_PARAMS` on a second line. -/
def cex9 : List Char := "#define A\n\"CRISPY_PARAMS\"".toList

/-- C9 counterexample: extract-params is present on this source (matching
across lines), yet strip-header removes nothing, so extract-params is
still present after stripping — refuting the claim as stated. -/
theorem c9_counterexample :
    (crispy_source_extract_params cex9).isSome = true ∧
      (crispy_source_extract_params (crispy_source_strip_header cex9)).isSome
        = true := by decide

/-- C9 witness input: one genuine parameter-macro line. -/
def c9w : List Char := "#define CRISPY_PARAMS \"-lm\"\nint x;".toList

/-- Witness for the amended C9 theorem on a concrete well-formed source. -/
theorem c9_extract_strip_amended_witness :
    crispy_source_extract_params (crispy_source_strip_header c9w) = none :=
  c9_extract_strip_amended c9w (by decide) (by decide) (by decide)

/-! ## The script pipeline (`crispy_script_execute`)

`crispy_script_execute` is embedded as a pure function over an
environment recording the outcome of every external effect: the result
each hook dispatch returns, the context fields hooks may write, and the
success of shell expansion, temp-file writing, compilation, module
loading and symbol lookup.  The output records the exit status, the
hooks dispatched in order, the flag strings handed to the fingerprint
computation and to the compiler, and which side effects happened. -/

/-- The nine pipeline hook points, in pipeline order. -/
inductive HookPoint where
  | sourceLoaded
  | paramsExpanded
  | hashComputed
  | cacheChecked
  | preCompile
  | postCompile
  | moduleLoaded
  | preExecute
  | postExecute
deriving DecidableEq

/-- A hook result: continue, abort, or force-recompile. -/
inductive HookResult where
  | cont
  | abort
  | forceRecompile
deriving DecidableEq

/-- The result each hook-point dispatch returns during one invocation
(`CRISPY_HOOK_CONTINUE` when no plugin engine is set). -/
structure HookResults where
  onSourceLoaded : HookResult
  onParamsExpanded : HookResult
  onHashComputed : HookResult
  onCacheChecked : HookResult
  onPreCompile : HookResult
  onPostCompile : HookResult
  onModuleLoaded : HookResult
  onPreExecute : HookResult
  onPostExecute : HookResult
deriving DecidableEq

/-- Replace the result of one hook point. -/
def setHook (hr : HookResults) (hp : HookPoint) (r : HookResult) :
    HookResults :=
  match hp with
  | HookPoint.sourceLoaded => { hr with onSourceLoaded := r }
  | HookPoint.paramsExpanded => { hr with onParamsExpanded := r }
  | HookPoint.hashComputed => { hr with onHashComputed := r }
  | HookPoint.cacheChecked => { hr with onCacheChecked := r }
  | HookPoint.preCompile => { hr with onPreCompile := r }
  | HookPoint.postCompile => { hr with onPostCompile := r }
  | HookPoint.moduleLoaded => { hr with onModuleLoaded := r }
  | HookPoint.preExecute => { hr with onPreExecute := r }
  | HookPoint.postExecute => { hr with onPostExecute := r }

/-- The `CrispyFlags` bitmask as four booleans. -/
structure Flags where
  forceCompile : Bool
  preserveSource : Bool
  dryRun : Bool
  gdb : Bool
deriving DecidableEq

/-- Environment of one pipeline invocation: script state set before the
call plus the behaviour of every external collaborator. -/
structure ScriptEnv where
  configExtraFlags : Option (List Char)
  configOverrideFlags : Option (List Char)
  expandResult : Option (List Char)
  hooks : HookResults
  ctxForceRecompile : Bool
  ctxExtraFlags : Option (List Char)
  cacheHasValid : Bool
  writeTempOk : Bool
  compileSharedOk : Bool
  compileExeOk : Bool
  execGdbOk : Bool
  moduleOpenOk : Bool
  mainSymbolOk : Bool
  mainReturn : Int
deriving DecidableEq

/-- Observable outcome of one pipeline invocation. -/
structure ExecOut where
  exitCode : Int
  hooksFired : List HookPoint
  hashFlags : Option (List Char) := none
  compileFlags : Option (List Char) := none
  wroteTemp : Bool := false
  printedPlan : Bool := false
  compiledShared : Bool := false
  compiledExe : Bool := false
  execedDebugger : Bool := false
  invokedMain : Bool := false
deriving DecidableEq

/-- The `ptr != NULL && ptr[0] != 0` test applied to each flag tier. -/
def nonEmptyStr : Option (List Char) → Bool
  | none => false
  | some s => !s.isEmpty

/-- The hash flag string built in the hash-computed phase of
`crispy_script_execute`: config extra flags then a space, expanded
parameters then a space, config override flags — each tier only when
non-empty. -/
def buildHashFlags (configExtra expandedParams configOverride :
    Option (List Char)) : List Char :=
  let buf : List Char := []
  let buf :=
    if nonEmptyStr configExtra then buf ++ configExtra.getD [] ++ [' ']
    else buf
  let buf :=
    if nonEmptyStr expandedParams then buf ++ expandedParams.getD [] ++ [' ']
    else buf
  let buf :=
    if nonEmptyStr configOverride then buf ++ configOverride.getD []
    else buf
  buf

/-- One tier of the compile flag assembly: when the tier is non-empty,
append a separating space (if the buffer is non-empty) and the tier. -/
def tierStep (buf : List Char) (t : Option (List Char)) : List Char :=
  if nonEmptyStr t then
    (if !buf.isEmpty then buf ++ [' '] else buf) ++ t.getD []
  else buf

/-- The compile flag string built on a cache miss: tier 1 config extra
flags (appended bare into the empty buffer, as in the C), then tiers 2-4
(expanded parameters, plugin-injected extra flags, config override
flags) each with the space-separation step. -/
def buildCompileFlags (t1 t2 t3 t4 : Option (List Char)) : List Char :=
  let buf : List Char := if nonEmptyStr t1 then t1.getD [] else []
  let buf := tierStep buf t2
  let buf := tierStep buf t3
  let buf := tierStep buf t4
  buf

/-- The non-empty tier strings, in order. -/
def neStrs : List (Option (List Char)) → List (List Char)
  | [] => []
  | t :: rest =>
    if nonEmptyStr t then t.getD [] :: neStrs rest else neStrs rest

/-- Join strings with one separating space between consecutive entries. -/
def joinSp : List (List Char) → List Char
  | [] => []
  | [s] => s
  | s :: rest => s ++ ' ' :: joinSp rest

/-- Tail of the pipeline after the cache branch: module load, the
module-loaded hook, `main` lookup, the pre-execute hook, invocation, and
the post-execute hook. -/
def executeTail (env : ScriptEnv) (fired : List HookPoint)
    (hf cf : Option (List Char)) (wroteTemp compiledShared : Bool) :
    ExecOut :=
  -- load the compiled shared object (g_module_open)
  if !env.moduleOpenOk then
    { exitCode := -1, hooksFired := fired, hashFlags := hf,
      compileFlags := cf, wroteTemp := wroteTemp,
      compiledShared := compiledShared }
  else
  -- [7] MODULE_LOADED
  let fired := fired ++ [HookPoint.moduleLoaded]
  if env.hooks.onModuleLoaded = HookResult.abort then
    { exitCode := -1, hooksFired := fired, hashFlags := hf,
      compileFlags := cf, wroteTemp := wroteTemp,
      compiledShared := compiledShared }
  else
  -- look up the main symbol
  if !env.mainSymbolOk then
    { exitCode := -1, hooksFired := fired, hashFlags := hf,
      compileFlags := cf, wroteTemp := wroteTemp,
      compiledShared := compiledShared }
  else
  -- [8] PRE_EXECUTE
  let fired := fired ++ [HookPoint.preExecute]
  if env.hooks.onPreExecute = HookResult.abort then
    { exitCode := -1, hooksFired := fired, hashFlags := hf,
      compileFlags := cf, wroteTemp := wroteTemp,
      compiledShared := compiledShared }
  else
  -- execute the script
  let ec := env.mainReturn
  -- [9] POST_EXECUTE (abort yields -1 but main has already run)
  let fired := fired ++ [HookPoint.postExecute]
  if env.hooks.onPostExecute = HookResult.abort then
    { exitCode := -1, hooksFired := fired, hashFlags := hf,
      compileFlags := cf, wroteTemp := wroteTemp,
      compiledShared := compiledShared, invokedMain := true }
  else
    { exitCode := ec, hooksFired := fired, hashFlags := hf,
      compileFlags := cf, wroteTemp := wroteTemp,
      compiledShared := compiledShared, invokedMain := true }

/-- The cache-miss block of `crispy_script_execute`: temp-source write,
dry-run early return, gdb mode, the pre-compile hook, flag assembly and
compilation, and the post-compile hook, then the common tail. -/
def executeMiss (f : Flags) (env : ScriptEnv) (fired : List HookPoint)
    (hf : List Char) : ExecOut :=
  -- write temp source
  if !env.writeTempOk then
    { exitCode := -1, hooksFired := fired, hashFlags := some hf }
  else
  -- dry-run: just show what would happen
  if f.dryRun then
    { exitCode := 0, hooksFired := fired, hashFlags := some hf,
      wroteTemp := true, printedPlan := true }
  else
  -- gdb mode: compile as executable and exec gdb
  if f.gdb then
    if !env.compileExeOk then
      { exitCode := -1, hooksFired := fired, hashFlags := some hf,
        wroteTemp := true }
    else if env.execGdbOk then
      -- the process is replaced; modelled as a distinguished outcome
      { exitCode := 0, hooksFired := fired, hashFlags := some hf,
        wroteTemp := true, compiledExe := true, execedDebugger := true }
    else
      { exitCode := -1, hooksFired := fired, hashFlags := some hf,
        wroteTemp := true, compiledExe := true }
  else
  -- [5] PRE_COMPILE
  let fired := fired ++ [HookPoint.preCompile]
  if env.hooks.onPreCompile = HookResult.abort then
    { exitCode := -1, hooksFired := fired, hashFlags := some hf,
      wroteTemp := true }
  else
  -- build compile_flags with tier precedence, then compile
  let cf := buildCompileFlags env.configExtraFlags env.expandResult
    env.ctxExtraFlags env.configOverrideFlags
  if !env.compileSharedOk then
    { exitCode := -1, hooksFired := fired, hashFlags := some hf,
      compileFlags := some cf, wroteTemp := true }
  else
  -- [6] POST_COMPILE
  let fired := fired ++ [HookPoint.postCompile]
  if env.hooks.onPostCompile = HookResult.abort then
    { exitCode := -1, hooksFired := fired, hashFlags := some hf,
      compileFlags := some cf, wroteTemp := true, compiledShared := true }
  else
    executeTail env fired (some hf) (some cf) true true

/-- Phases 3 onward of `crispy_script_execute`: hash computation, the
hash-computed and cache-checked hooks, the cache decision, and the
miss/hit branch. -/
def executeFromHash (f : Flags) (env : ScriptEnv) (fired : List HookPoint) :
    ExecOut :=
  -- [3] HASH_COMPUTED: hash over config extra flags, expanded params,
  -- config override flags
  let hf := buildHashFlags env.configExtraFlags env.expandResult
    env.configOverrideFlags
  let fired := fired ++ [HookPoint.hashComputed]
  if env.hooks.onHashComputed = HookResult.abort then
    { exitCode := -1, hooksFired := fired, hashFlags := some hf }
  else
  -- [4] CACHE_CHECKED
  let cacheHit0 := if !f.forceCompile then env.cacheHasValid else false
  let fired := fired ++ [HookPoint.cacheChecked]
  if env.hooks.onCacheChecked = HookResult.abort then
    { exitCode := -1, hooksFired := fired, hashFlags := some hf }
  else
  let cacheHit :=
    if env.hooks.onCacheChecked = HookResult.forceRecompile ||
        env.ctxForceRecompile then false
    else cacheHit0
  if !cacheHit then executeMiss f env fired hf
  else executeTail env fired (some hf) none false false

/-- Embedding of `crispy_script_execute` (crispy-script.c): phases 1-2,
then the rest of the pipeline. -/
def execute (f : Flags) (env : ScriptEnv) : ExecOut :=
  -- [1] SOURCE_LOADED
  let fired := [HookPoint.sourceLoaded]
  if env.hooks.onSourceLoaded = HookResult.abort then
    { exitCode := -1, hooksFired := fired }
  else
  -- [2] PARAMS_EXPANDED (shell expansion may fail)
  match env.expandResult with
  | none => { exitCode := -1, hooksFired := fired }
  | some _ =>
  let fired := fired ++ [HookPoint.paramsExpanded]
  if env.hooks.onParamsExpanded = HookResult.abort then
    { exitCode := -1, hooksFired := fired }
  else
    executeFromHash f env fired

/-! ## C4: compile flag tiers -/

theorem nonEmptyStr_getD {t : Option (List Char)}
    (h : nonEmptyStr t = true) : t.getD [] ≠ [] := by
  cases t with
  | none => cases h
  | some s =>
    simp [nonEmptyStr] at h
    simpa using h

theorem joinSp_cons_cons (s r : List Char) (rest : List (List Char)) :
    joinSp (s :: r :: rest) = s ++ ' ' :: joinSp (r :: rest) := rfl

theorem tierStep_ne (buf : List Char) (t : Option (List Char))
    (hb : buf ≠ []) (ht : nonEmptyStr t = true) :
    tierStep buf t = buf ++ ' ' :: t.getD [] := by
  simp [tierStep, ht, List.isEmpty_iff, hb, List.append_assoc]

theorem tierStep_skip (buf : List Char) (t : Option (List Char))
    (ht : ¬ nonEmptyStr t = true) : tierStep buf t = buf := by
  simp [tierStep, ht]

theorem foldl_tierStep_ne (ts : List (Option (List Char)))
    (buf : List Char) (h : buf ≠ []) :
    List.foldl tierStep buf ts =
      if neStrs ts = [] then buf else buf ++ ' ' :: joinSp (neStrs ts) := by
  induction ts generalizing buf with
  | nil => simp [neStrs]
  | cons t rest ih =>
    rw [List.foldl_cons]
    by_cases ht : nonEmptyStr t = true
    · rw [tierStep_ne buf t h ht]
      have hne : buf ++ ' ' :: t.getD [] ≠ [] := by simp
      rw [ih _ hne]
      simp only [neStrs, ht, if_true]
      cases hrest : neStrs rest with
      | nil => simp [joinSp]
      | cons r rs =>
        rw [joinSp_cons_cons]
        simp [List.append_assoc]
    · rw [tierStep_skip buf t ht, ih _ h]
      simp [neStrs, ht]

theorem foldl_tierStep_nil (ts : List (Option (List Char))) :
    List.foldl tierStep [] ts = joinSp (neStrs ts) := by
  cases ts with
  | nil => rfl
  | cons t rest =>
    rw [List.foldl_cons]
    by_cases ht : nonEmptyStr t = true
    · have hgd := nonEmptyStr_getD ht
      have hstep : tierStep [] t = t.getD [] := by
        simp [tierStep, ht]
      rw [hstep, foldl_tierStep_ne rest _ hgd]
      simp only [neStrs, ht, if_true]
      cases hrest : neStrs rest with
      | nil => simp [joinSp]
      | cons r rs => rw [joinSp_cons_cons]; simp
    · rw [tierStep_skip [] t ht]
      cases rest with
      | nil => simp [neStrs, ht, joinSp]
      | cons r rs =>
        rw [foldl_tierStep_nil (r :: rs)]
        simp [neStrs, ht]

theorem buildCompileFlags_tiers (t1 t2 t3 t4 : Option (List Char)) :
    buildCompileFlags t1 t2 t3 t4 = joinSp (neStrs [t1, t2, t3, t4]) := by
  have h1 : tierStep [] t1 = if nonEmptyStr t1 then t1.getD [] else [] := by
    by_cases h : nonEmptyStr t1 = true <;> simp [tierStep, h]
  have h2 : buildCompileFlags t1 t2 t3 t4 =
      List.foldl tierStep [] [t1, t2, t3, t4] := by
    simp [buildCompileFlags, List.foldl_cons, h1]
  rw [h2, foldl_tierStep_nil]

theorem executeTail_compileFlags (env : ScriptEnv) (fired : List HookPoint)
    (hf cf : Option (List Char)) (w c : Bool) :
    (executeTail env fired hf cf w c).compileFlags = cf := by
  unfold executeTail
  repeat' split
  all_goals rfl

theorem executeMiss_compileFlags (f : Flags) (env : ScriptEnv)
    (fired : List HookPoint) (hf : List Char) :
    (executeMiss f env fired hf).compileFlags = none ∨
      (executeMiss f env fired hf).compileFlags =
        some (buildCompileFlags env.configExtraFlags env.expandResult
          env.ctxExtraFlags env.configOverrideFlags) := by
  simp only [executeMiss]
  repeat' split
  all_goals simp [executeTail_compileFlags]

theorem executeFromHash_compileFlags (f : Flags) (env : ScriptEnv)
    (fired : List HookPoint) :
    (executeFromHash f env fired).compileFlags = none ∨
      (executeFromHash f env fired).compileFlags =
        some (buildCompileFlags env.configExtraFlags env.expandResult
          env.ctxExtraFlags env.configOverrideFlags) := by
  simp only [executeFromHash]
  repeat' split
  all_goals first
    | exact executeMiss_compileFlags _ _ _ _
    | simp [executeTail_compileFlags]

theorem execute_compileFlags (f : Flags) (env : ScriptEnv) :
    (execute f env).compileFlags = none ∨
      (execute f env).compileFlags =
        some (buildCompileFlags env.configExtraFlags env.expandResult
          env.ctxExtraFlags env.configOverrideFlags) := by
  simp only [execute]
  repeat' split
  all_goals first
    | exact executeFromHash_compileFlags _ _ _
    | simp

/-- C4: the compile flag string assembled for a cache-miss compilation
contains exactly the non-empty tiers — config default flags, expanded
parameters, plugin-injected extra flags, config override flags — in that
order, each at most once, consecutive tiers separated by one space and
empty tiers entirely absent; and every flag string the pipeline hands to
the shared-object compiler is that assembly of the invocation's tiers. -/
theorem c4_compile_flag_tiers :
    (∀ t1 t2 t3 t4 : Option (List Char),
      buildCompileFlags t1 t2 t3 t4 = joinSp (neStrs [t1, t2, t3, t4])) ∧
    (∀ (f : Flags) (env : ScriptEnv) (cf : List Char),
      (execute f env).compileFlags = some cf →
      cf = joinSp (neStrs [env.configExtraFlags, env.expandResult,
        env.ctxExtraFlags, env.configOverrideFlags])) := by
  refine ⟨buildCompileFlags_tiers, ?_⟩
  intro f env cf h
  rcases execute_compileFlags f env with h0 | h0
  · rw [h0] at h; cases h
  · rw [h0] at h
    cases h
    exact buildCompileFlags_tiers _ _ _ _

/-- Dispatch results with every hook continuing. -/
def hooksOk : HookResults :=
  ⟨HookResult.cont, HookResult.cont, HookResult.cont, HookResult.cont,
   HookResult.cont, HookResult.cont, HookResult.cont, HookResult.cont,
   HookResult.cont⟩

/-- A concrete fully-working environment on a cache miss. -/
def envW : ScriptEnv :=
  { configExtraFlags := some "-O2".toList
  , configOverrideFlags := none
  , expandResult := some "-lm".toList
  , hooks := hooksOk
  , ctxForceRecompile := false
  , ctxExtraFlags := none
  , cacheHasValid := false
  , writeTempOk := true
  , compileSharedOk := true
  , compileExeOk := true
  , execGdbOk := true
  , moduleOpenOk := true
  , mainSymbolOk := true
  , mainReturn := 0 }

/-- No driver flags set. -/
def flagsNone : Flags := ⟨false, false, false, false⟩

/-- Only the dry-run flag set. -/
def flagsDry : Flags := ⟨false, false, true, false⟩

/-- Witness for C4 on a concrete miss compilation with two tiers. -/
theorem c4_compile_flag_tiers_witness :
    (execute flagsNone envW).compileFlags = some ("-O2 -lm".toList) ∧
      ("-O2 -lm".toList : List Char) = joinSp (neStrs [envW.configExtraFlags,
        envW.expandResult, envW.ctxExtraFlags, envW.configOverrideFlags]) :=
  ⟨by decide, c4_compile_flag_tiers.2 flagsNone envW _ (by decide)⟩

/-! ## C2: the flag string handed to the fingerprint computation -/

theorem buildHashFlags_spec (d p o : Option (List Char)) :
    buildHashFlags d p o =
      joinSp (neStrs [d, p, o]) ++
        (if !nonEmptyStr o && (nonEmptyStr d || nonEmptyStr p) then [' ']
         else []) := by
  by_cases hd : nonEmptyStr d = true <;>
    by_cases hp : nonEmptyStr p = true <;>
    by_cases ho : nonEmptyStr o = true <;>
    simp [buildHashFlags, neStrs, joinSp, hd, hp, ho, List.append_assoc]

theorem executeTail_hashFlags (env : ScriptEnv) (fired : List HookPoint)
    (hf cf : Option (List Char)) (w c : Bool) :
    (executeTail env fired hf cf w c).hashFlags = hf := by
  unfold executeTail
  repeat' split
  all_goals rfl

theorem executeMiss_hashFlags (f : Flags) (env : ScriptEnv)
    (fired : List HookPoint) (hf : List Char) :
    (executeMiss f env fired hf).hashFlags = some hf := by
  simp only [executeMiss]
  repeat' split
  all_goals simp [executeTail_hashFlags]

theorem executeFromHash_hashFlags (f : Flags) (env : ScriptEnv)
    (fired : List HookPoint) :
    (executeFromHash f env fired).hashFlags =
      some (buildHashFlags env.configExtraFlags env.expandResult
        env.configOverrideFlags) := by
  simp only [executeFromHash]
  repeat' split
  all_goals first
    | exact executeMiss_hashFlags _ _ _ _
    | simp [executeTail_hashFlags]

/-- C2 (amended): once the pipeline reaches the hash-computed phase, the
flag string passed to the fingerprint computation is the space-joined
concatenation of the non-empty tiers (config default flags, expanded
parameters, config override flags) in order, with one trailing space
left in place whenever the override tier is empty and another tier is
not: the string is not trimmed. -/
theorem c2_hash_flags_amended (f : Flags) (env : ScriptEnv)
    (h1 : env.hooks.onSourceLoaded ≠ HookResult.abort)
    (hexp : env.expandResult ≠ none)
    (h2 : env.hooks.onParamsExpanded ≠ HookResult.abort) :
    (execute f env).hashFlags =
      some (joinSp (neStrs [env.configExtraFlags, env.expandResult,
          env.configOverrideFlags]) ++
        (if !nonEmptyStr env.configOverrideFlags &&
            (nonEmptyStr env.configExtraFlags ||
              nonEmptyStr env.expandResult) then [' '] else [])) := by
  rw [← buildHashFlags_spec]
  obtain ⟨ps, hps⟩ := Option.ne_none_iff_exists'.mp hexp
  simp [execute, hps, h1, h2, executeFromHash_hashFlags]

/-- Witness for the amended C2 theorem at a concrete environment. -/
theorem c2_hash_flags_amended_witness :
    (execute flagsNone envW).hashFlags =
      some (joinSp (neStrs [envW.configExtraFlags, envW.expandResult,
          envW.configOverrideFlags]) ++
        (if !nonEmptyStr envW.configOverrideFlags &&
            (nonEmptyStr envW.configExtraFlags ||
              nonEmptyStr envW.expandResult) then [' '] else [])) :=
  c2_hash_flags_amended flagsNone envW (by decide) (by decide) (by decide)

/-- C2 counterexample environment: a default-flags tier, an empty
expansion, no override tier. -/
def envC2 : ScriptEnv :=
  { envW with configExtraFlags := some "-O2".toList, expandResult := some [] }

/-- C2 counterexample: the flag string passed to the fingerprint
computation keeps a trailing space when the override tier is empty; the
claim demands the trimmed string `-O2`. -/
theorem c2_counterexample :
    (execute flagsNone envC2).hashFlags = some ("-O2 ".toList) ∧
      ("-O2 ".toList : List Char) ≠ "-O2".toList := by decide

/-! ## C5: dry-run behaviour -/

/-- C5 (amended): with the dry-run flag set, when the pipeline reaches
the cache check without an abort, the check results in a miss (forced
recompile, invalid cache entry, or a hook forcing recompilation) and the
temp-source write succeeds, the pipeline prints the intended commands,
returns exit status 0, performs no compilation and never invokes the
script's `main`.  On a cache hit dry-run has no effect and the script is
loaded and executed normally (see the counterexample). -/
theorem c5_dry_run_amended (f : Flags) (env : ScriptEnv)
    (hdry : f.dryRun = true)
    (h1 : env.hooks.onSourceLoaded ≠ HookResult.abort)
    (hexp : env.expandResult ≠ none)
    (h2 : env.hooks.onParamsExpanded ≠ HookResult.abort)
    (h3 : env.hooks.onHashComputed ≠ HookResult.abort)
    (h4 : env.hooks.onCacheChecked ≠ HookResult.abort)
    (hmiss : f.forceCompile = true ∨ env.cacheHasValid = false ∨
      env.hooks.onCacheChecked = HookResult.forceRecompile ∨
      env.ctxForceRecompile = true)
    (hw : env.writeTempOk = true) :
    (execute f env).exitCode = 0 ∧ (execute f env).printedPlan = true ∧
      (execute f env).invokedMain = false ∧
      (execute f env).compiledShared = false ∧
      (execute f env).compiledExe = false := by
  obtain ⟨ps, hps⟩ := Option.ne_none_iff_exists'.mp hexp
  rcases hmiss with h | h | h | h <;>
    simp [execute, executeFromHash, executeMiss, hps, h1, h2, h3, h4,
      hdry, hw, h]

/-- Witness for the amended C5 theorem: dry-run on a concrete miss. -/
theorem c5_dry_run_amended_witness :
    (execute flagsDry envW).exitCode = 0 ∧
      (execute flagsDry envW).printedPlan = true ∧
      (execute flagsDry envW).invokedMain = false ∧
      (execute flagsDry envW).compiledShared = false ∧
      (execute flagsDry envW).compiledExe = false :=
  c5_dry_run_amended flagsDry envW (by decide) (by decide) (by decide)
    (by decide) (by decide) (by decide) (by decide) (by decide)

/-- C5 counterexample environment: a valid cache entry and a script
returning 5. -/
def envHit : ScriptEnv := { envW with cacheHasValid := true, mainReturn := 5 }

/-- C5 counterexample: with the dry-run flag set but a cache hit, the
pipeline does not print a plan or return 0 — it loads the artifact and
invokes `main`, returning its exit code — so the claim fails for hits. -/
theorem c5_counterexample :
    (execute flagsDry envHit).invokedMain = true ∧
      (execute flagsDry envHit).exitCode = 5 ∧
      (execute flagsDry envHit).printedPlan = false := by decide

/-! ## C6: force-recompile outside cache-checked

The engine-side dispatch loop of `crispy_plugin_engine_dispatch` is
embedded over a list of plugin entries, each knowing, per hook point,
whether it installs a handler and what that handler returns.  The
per-plugin private-data swap does not influence control flow and is not
modelled.  The dispatch result also reports which plugins were invoked,
in order. -/

/-- One registered plugin as seen by dispatch: for each hook point,
`none` when no handler is exported, otherwise the handler's result. -/
structure PluginE where
  handler : HookPoint → Option HookResult

/-- Embedding of `crispy_plugin_engine_dispatch`: iterate the plugin
list in insertion order, skip null handlers, stop at the first result
other than continue.  Returns the final result and the invoked
plugins. -/
def crispy_plugin_engine_dispatch (plugins : List PluginE)
    (hp : HookPoint) : HookResult × List PluginE :=
  match plugins with
  | [] => (HookResult.cont, [])
  | pl :: rest =>
    match pl.handler hp with
    | none => crispy_plugin_engine_dispatch rest hp
    | some r =>
      if r = HookResult.cont then
        let next := crispy_plugin_engine_dispatch rest hp
        (next.1, pl :: next.2)
      else (r, [pl])

/-- C6 (amended): a plugin returning force-recompile stops dispatch at
that plugin — no later plugin at the hook point is invoked and the
engine reports force-recompile — but at every hook point other than
cache-checked the pipeline treats that result exactly as continue, not
as abort: the invocation proceeds unchanged. -/
theorem c6_force_recompile_amended :
    (∀ (pre post : List PluginE) (pl : PluginE) (hp : HookPoint),
      (∀ q ∈ pre, ∀ r, q.handler hp = some r → r = HookResult.cont) →
      pl.handler hp = some HookResult.forceRecompile →
      crispy_plugin_engine_dispatch (pre ++ pl :: post) hp =
        (HookResult.forceRecompile,
          pre.filter (fun q => (q.handler hp).isSome) ++ [pl])) ∧
    (∀ (f : Flags) (env : ScriptEnv) (hp : HookPoint),
      hp ≠ HookPoint.cacheChecked →
      execute f
          { env with hooks := setHook env.hooks hp HookResult.forceRecompile }
        = execute f
          { env with hooks := setHook env.hooks hp HookResult.cont }) := by
  constructor
  · intro pre post pl hp hpre hpl
    induction pre with
    | nil =>
      simp [crispy_plugin_engine_dispatch, hpl]
    | cons q pre ih =>
      have hq := hpre q (List.mem_cons_self _ _)
      have hrest : ∀ q ∈ pre, ∀ r, q.handler hp = some r →
          r = HookResult.cont :=
        fun q hm => hpre q (List.mem_cons_of_mem _ hm)
      cases hqh : q.handler hp with
      | none =>
        simp [crispy_plugin_engine_dispatch, hqh, ih hrest,
          List.filter_cons]
      | some r =>
        have hr := hq r hqh
        subst hr
        simp [crispy_plugin_engine_dispatch, hqh, ih hrest,
          List.filter_cons]
  · intro f env hp hne
    obtain ⟨cef, cof, er, hooks, cfr, cxf, chv, wto, cso, ceo, ego, moo,
      mso, mr⟩ := env
    obtain ⟨r1, r2, r3, r4, r5, r6, r7, r8, r9⟩ := hooks
    cases hp <;>
      first
      | exact absurd rfl hne
      | simp [setHook, execute, executeFromHash, executeMiss, executeTail]

/-- A plugin whose handlers all return force-recompile. -/
def plForce : PluginE := ⟨fun _ => some HookResult.forceRecompile⟩

/-- Witness for the amended C6 theorem: a concrete one-plugin dispatch
and a concrete pipeline environment at the source-loaded hook. -/
theorem c6_force_recompile_amended_witness :
    crispy_plugin_engine_dispatch ([] ++ plForce :: [])
        HookPoint.sourceLoaded =
      (HookResult.forceRecompile,
        List.filter (fun q => (q.handler HookPoint.sourceLoaded).isSome) []
          ++ [plForce]) ∧
      execute flagsNone { envW with
          hooks := setHook envW.hooks HookPoint.sourceLoaded
            HookResult.forceRecompile }
        = execute flagsNone { envW with
          hooks := setHook envW.hooks HookPoint.sourceLoaded
            HookResult.cont } :=
  ⟨c6_force_recompile_amended.1 [] [] plForce HookPoint.sourceLoaded
      (fun q hq => absurd hq (List.not_mem_nil q)) rfl,
    c6_force_recompile_amended.2 flagsNone envW HookPoint.sourceLoaded
      (by decide)⟩

/-- C6 counterexample environment: the source-loaded hook dispatch
returns force-recompile, the cache has a valid entry, the script
returns 7. -/
def envC6 : ScriptEnv :=
  { envW with
      hooks := { hooksOk with onSourceLoaded := HookResult.forceRecompile }
    , cacheHasValid := true
    , mainReturn := 7 }

/-- C6 counterexample: a force-recompile return from the source-loaded
hook does not halt the pipeline with −1 as an abort would; the pipeline
proceeds and the script runs, returning its own exit code. -/
theorem c6_counterexample :
    (execute flagsNone envC6).exitCode = 7 ∧
      (execute flagsNone envC6).invokedMain = true := by decide

/-! ## C10: plugin load failure leaves the engine unchanged

`g_module_open` and symbol resolution are modelled by a module system:
a partial map from paths to module descriptions listing which symbols
the module exports.  `crispy_plugin_engine_load` returns success, the
new plugin list, and whether the optional initializer was invoked. -/

/-- A loadable module as seen by the plugin engine: whether the
mandatory `crispy_plugin_info` descriptor resolves, whether the optional
initializer and shutdown symbols resolve, and which hook symbols it
exports. -/
structure PluginModule where
  hasInfo : Bool
  hasInit : Bool
  hasShutdown : Bool
  hookImpl : HookPoint → Bool

/-- One registered plugin entry of the engine. -/
structure PluginEntry where
  path : List Char
  hasShutdown : Bool
  hookImpl : HookPoint → Bool

/-- Embedding of `crispy_plugin_engine_load`: open the module (failure
reports an error and leaves the engine alone), resolve the mandatory
info symbol (missing info closes the module and fails), resolve the
optional symbols, call the initializer if present, and append the entry
at the tail of the plugin list.  The third component records whether the
initializer was invoked. -/
def crispy_plugin_engine_load (modsys : List Char → Option PluginModule)
    (plugins : List PluginEntry) (path : List Char) :
    Bool × List PluginEntry × Bool :=
  match modsys path with
  | none => (false, plugins, false)
  | some m =>
    if !m.hasInfo then (false, plugins, false)
    else (true, plugins ++ [⟨path, m.hasShutdown, m.hookImpl⟩], m.hasInit)

/-- The path-separator set of `g_strsplit_set(paths, ":,", -1)`. -/
def isPathSep (c : Char) : Bool := c = ':' || c = ','

/-- Split on colon or comma (single-separator core of g_strsplit_set). -/
def splitSepChars : List Char → List (List Char)
  | [] => [[]]
  | c :: rest =>
    if isPathSep c then [] :: splitSepChars rest
    else
      match splitSepChars rest with
      | [] => [[c]]
      | l :: ls => (c :: l) :: ls

/-- Embedding of g_strsplit_set on colon/comma: empty vector on the empty string,
separator-delimited tokens otherwise. -/
def g_strsplit_set_sep (s : List Char) : List (List Char) :=
  if s.isEmpty then [] else splitSepChars s

/-- The ASCII whitespace set of `g_ascii_isspace`. -/
def isAsciiWs (c : Char) : Bool :=
  c = ' ' || c = '\t' || c = '\n' || c = '\r' || c = '\x0b' || c = '\x0c'

/-- Embedding of g_strstrip: drop leading and trailing ASCII whitespace. -/
def g_strstrip (s : List Char) : List Char :=
  ((s.dropWhile isAsciiWs).reverse.dropWhile isAsciiWs).reverse

/-- The token loop of `crispy_plugin_engine_load_paths`: strip each
token, skip empties, load the rest via `crispy_plugin_engine_load`,
stopping at the first failure. -/
def load_paths_go (modsys : List Char → Option PluginModule) :
    List PluginEntry → List (List Char) → Bool × List PluginEntry
  | plugins, [] => (true, plugins)
  | plugins, tok :: rest =>
    let t := g_strstrip tok
    if t.isEmpty then load_paths_go modsys plugins rest
    else
      match crispy_plugin_engine_load modsys plugins t with
      | (true, plugins2, _) => load_paths_go modsys plugins2 rest
      | (false, plugins2, _) => (false, plugins2)

/-- Embedding of `crispy_plugin_engine_load_paths`. -/
def crispy_plugin_engine_load_paths
    (modsys : List Char → Option PluginModule) (plugins : List PluginEntry)
    (paths : List Char) : Bool × List PluginEntry :=
  load_paths_go modsys plugins (g_strsplit_set_sep paths)

/-- The entries of the maximal prefix of tokens that load successfully:
stripped, empties skipped, cut at the first token whose module cannot be
opened or lacks the mandatory descriptor. -/
def successEntries (modsys : List Char → Option PluginModule) :
    List (List Char) → List PluginEntry
  | [] => []
  | tok :: rest =>
    let t := g_strstrip tok
    if t.isEmpty then successEntries modsys rest
    else
      match modsys t with
      | none => []
      | some m =>
        if !m.hasInfo then []
        else ⟨t, m.hasShutdown, m.hookImpl⟩ :: successEntries modsys rest

theorem load_paths_go_spec (modsys : List Char → Option PluginModule)
    (toks : List (List Char)) :
    ∀ plugins : List PluginEntry,
      (load_paths_go modsys plugins toks).2 =
        plugins ++ successEntries modsys toks := by
  induction toks with
  | nil => intro plugins; simp [load_paths_go, successEntries]
  | cons tok rest ih =>
    intro plugins
    by_cases ht : (g_strstrip tok).isEmpty = true
    · simp [load_paths_go, successEntries, ht, ih]
    · cases hm : modsys (g_strstrip tok) with
      | none =>
        simp [load_paths_go, successEntries, ht, hm,
          crispy_plugin_engine_load]
      | some m =>
        cases hinfo : m.hasInfo with
        | false =>
          simp [load_paths_go, successEntries, ht, hm, hinfo,
            crispy_plugin_engine_load]
        | true =>
          simp [load_paths_go, successEntries, ht, hm, hinfo,
            crispy_plugin_engine_load, ih]

/-- C10: a failing load (unopenable module or missing mandatory
descriptor) leaves the engine's plugin list unchanged and never invokes
the plugin's optional initializer; consequently a load-list call always
leaves exactly the entries of the successfully loaded prefix of tokens
appended, in order — a failing call keeps every plugin loaded from
earlier tokens registered. -/
theorem c10_load_failure_engine_unchanged :
    (∀ (modsys : List Char → Option PluginModule)
        (plugins : List PluginEntry) (path : List Char),
      (crispy_plugin_engine_load modsys plugins path).1 = false →
      (crispy_plugin_engine_load modsys plugins path).2.1 = plugins ∧
        (crispy_plugin_engine_load modsys plugins path).2.2 = false) ∧
    (∀ (modsys : List Char → Option PluginModule)
        (plugins : List PluginEntry) (paths : List Char),
      (crispy_plugin_engine_load_paths modsys plugins paths).2 =
        plugins ++ successEntries modsys (g_strsplit_set_sep paths)) := by
  constructor
  · intro modsys plugins path h
    cases hm : modsys path with
    | none => simp [crispy_plugin_engine_load, hm]
    | some m =>
      cases hinfo : m.hasInfo with
      | false => simp [crispy_plugin_engine_load, hm, hinfo]
      | true => simp [crispy_plugin_engine_load, hm, hinfo] at h
  · intro modsys plugins paths
    exact load_paths_go_spec modsys _ plugins

/-- A module system exporting no modules at all. -/
def modsysNone : List Char → Option PluginModule := fun _ => none

/-- Witness for C10: loading from an empty module system fails and
leaves a concrete engine unchanged with the initializer uninvoked. -/
theorem c10_load_failure_engine_unchanged_witness :
    (crispy_plugin_engine_load modsysNone [] ['p']).2.1 = [] ∧
      (crispy_plugin_engine_load modsysNone [] ['p']).2.2 = false :=
  c10_load_failure_engine_unchanged.1 modsysNone [] ['p'] (by decide)
